import Mathlib

/-! cix and cixd: client and daemon of a small remote file protocol.

A shallow embedding of `cix.cpp` (the client) and `cixd.cpp` (the daemon).

* Shared part: the header and the command tags of `protocol.h`, the socket
  as the bytes to come and the packets sent, the working directory as a map
  from names to files.
* `Cix.Daemon`: `reply_ls`, `reply_get`, `reply_put`, `reply_rm`,
  `run_server`, `reap_zombies`.
* `Cix.Client`: `cix_ls`, `cix_get`, `cix_put`, `cix_rm` and the session loop
  of `main`.

Writes to `outlog` and `cout` are not part of the state.  A `send_packet` is
taken to succeed; a `recv_packet` fails (the `socket_error` of the source)
when the peer closes before the requested number of bytes has arrived.  An
array whose size is only known when the program runs lies on the stack: when
it is larger than the room the stack has left, the process is killed.  A step
of the client without defined behaviour ends the call it is in, with the state
reached before it; the one exception is a store past the end of the filename
array, which is counted in `overrun`.
-/

set_option autoImplicit false

namespace Cix

/-! ## The protocol header -/

/-- One octet of a file or of the wire. -/
abbrev Byte := Fin 256

/-- Modelled from the spec: the tag type of `protocol.h`, which is not among
the sources.  The spec lists these eleven tags: six requests, four responses
and the client-side `ERROR`. -/
inductive cix_command where
  | ERROR | EXIT | GET | HELP | LS | PUT | RM | FILEOUT | LSOUT | ACK | NAK
  deriving DecidableEq, Repr

/-- Modelled from the spec: the header struct of `protocol.h`, which is not
among the sources.  It has the three fields the spec names.  `filename` is the
content of the character array, that is, everything stored in it, not only the
C string it starts with. -/
structure cix_header where
  nbytes : Nat
  command : cix_command
  filename : List Char
  deriving DecidableEq, Repr

/-- The constants and the layout that `protocol.h` fixes and the two programs
use: the size of the filename array, `sizeof (cix_header)`, the width in bits
of the unsigned `nbytes` field, the value of a default-constructed header, and
how a received block of `HEADER_SIZE` bytes reads as a header. -/
structure Protocol where
  FILENAME_SIZE : Nat
  HEADER_SIZE : Nat
  NBYTES_BITS : Nat
  header_init : cix_header
  decode : List Byte → cix_header

/-- The terminating character of a C string. -/
def NUL : Char := Char.ofNat 0

/-- The C string that starts at the beginning of a character array: the
characters before the first NUL. -/
def c_str (a : List Char) : List Char :=
  a.takeWhile (fun c => c != NUL)

/-- Assignment of a size to the unsigned `nbytes` field. -/
def to_nbytes (P : Protocol) (n : Nat) : Nat :=
  n % 2 ^ P.NBYTES_BITS

/-! ## The working directory -/

/-- A regular file: its bytes and whether the process may read and write it. -/
structure File where
  content : List Byte
  readable : Bool
  writable : Bool
  deriving DecidableEq, Repr

/-- The directory a process works in: the regular files by name, and, by name,
whether a missing file may be created and whether an entry may be removed. -/
structure FileSystem where
  files : List Char → Option File
  may_create : List Char → Bool
  may_unlink : List Char → Bool

/-- Replace (or, with `none`, drop) the entry of one name. -/
def FileSystem.set (fs : FileSystem) (name : List Char) (f : Option File) : FileSystem :=
  { fs with files := fun n => if n = name then f else fs.files n }

/-- The constructor `ifstream in (name)` followed by reading the whole file:
`none` is `in.fail()`. -/
def ifstream (fs : FileSystem) (name : List Char) : Option (List Byte) :=
  match fs.files name with
  | some f => if f.readable then some f.content else none
  | none => none

/-- The constructor `ofstream out (name)`: an existing file is truncated, a
missing one is created empty, readable and writable; `none` is `out.fail()`. -/
def ofstream (fs : FileSystem) (name : List Char) : Option FileSystem :=
  match fs.files name with
  | some f =>
    if f.writable then some (fs.set name (some { f with content := [] })) else none
  | none =>
    if fs.may_create name then
      some (fs.set name (some { content := [], readable := true, writable := true }))
    else none

/-- The effect of `out.write (data, n)` and `out.close ()` on an opened
stream: the bytes are appended to the file. -/
def ofstream_write (fs : FileSystem) (name : List Char) (data : List Byte) : FileSystem :=
  match fs.files name with
  | some f => fs.set name (some { f with content := f.content ++ data })
  | none => fs

/-- The system call `unlink (name)`: `0` and the entry is gone, or `-1` and
nothing has changed. -/
def unlink (fs : FileSystem) (name : List Char) : Int × FileSystem :=
  match fs.files name with
  | some _ => if fs.may_unlink name then (0, fs.set name none) else (-1, fs)
  | none => (-1, fs)

/-! ## The socket -/

/-- What one call of `send_packet` puts on the wire: a header block or a run
of raw bytes. -/
inductive Packet where
  | header (h : cix_header)
  | payload (bytes : List Byte)
  deriving DecidableEq, Repr

/-- One end of a connection: the bytes the peer delivers before it closes, and
the calls of `send_packet` made so far, oldest first. -/
structure Socket where
  inbox : List Byte
  sent : List Packet
  deriving DecidableEq, Repr

/-- Modelled from the spec: `send_packet` of `protocol.h`, which is not among
the sources; the spec gives `send (connection, bytes)`. -/
def send_packet (s : Socket) (p : Packet) : Socket :=
  { s with sent := s.sent ++ [p] }

/-- Modelled from the spec: `recv_packet` of `protocol.h`, which is not among
the sources; the spec gives `receive (connection, exact length)`, an error
when the peer closes first.  `none` is the thrown `socket_error`. -/
def recv_packet (s : Socket) (n : Nat) : Option (List Byte × Socket) :=
  if n ≤ s.inbox.length then some (s.inbox.take n, { s with inbox := s.inbox.drop n })
  else none

/-- The call `recv_packet (sock, &header, sizeof header)`. -/
def recv_header (P : Protocol) (s : Socket) : Option (cix_header × Socket) :=
  match recv_packet s P.HEADER_SIZE with
  | some (block, s1) => some (P.decode block, s1)
  | none => none

/-- The number of header blocks among the packets sent. -/
def headers_sent : List Packet → Nat
  | [] => 0
  | Packet.header _ :: ps => headers_sent ps + 1
  | Packet.payload _ :: ps => headers_sent ps

/-- Why a call does not return to its caller: `recv_packet` threw
`socket_error`, or an array of a size known only at run time did not fit the
stack and the process was killed. -/
inductive Failure where
  | socket_error | stack_overflow
  deriving DecidableEq, Repr

namespace Daemon

/-! ## cixd.cpp -/

/-- The state one worker of the daemon acts on: its working directory, the
accepted socket `client_sock`, and `stack`, the number of bytes the stack has
left for an array of run-time size once the fixed frames of a call are in
place. -/
structure Server where
  fs : FileSystem
  sock : Socket
  stack : Nat

/-- The function `reply_ls` of cixd.cpp.  `popen_ls` stands for running
`ls -l 2>&1` through `popen`: the value of `errno` when the pipe cannot be
opened, else the text gathered in `ls_output`. -/
def reply_ls (P : Protocol) (popen_ls : FileSystem → Except Nat (List Byte))
    (sv : Server) (header : cix_header) : Except Failure Server :=
  match popen_ls sv.fs with
  | Except.error errno =>
    let header := { header with command := cix_command.NAK, nbytes := to_nbytes P errno }
    Except.ok { sv with sock := send_packet sv.sock (Packet.header header) }
  | Except.ok ls_output =>
    let header : cix_header :=
      { command := cix_command.LSOUT
        nbytes := to_nbytes P ls_output.length
        filename := List.replicate P.FILENAME_SIZE NUL }
    let sock := send_packet sv.sock (Packet.header header)
    Except.ok { sv with sock := send_packet sock (Packet.payload ls_output) }

/-- The function `reply_get` of cixd.cpp.  The array `buffer` has the size of
the file and lies on the stack. -/
def reply_get (P : Protocol) (sv : Server) (header : cix_header) : Except Failure Server :=
  match ifstream sv.fs (c_str header.filename) with
  | none =>
    let header := { header with command := cix_command.NAK }
    Except.ok { sv with sock := send_packet sv.sock (Packet.header header) }
  | some buffer =>
    let size := buffer.length
    if sv.stack < size then Except.error Failure.stack_overflow
    else
      let header :=
        { header with command := cix_command.FILEOUT, nbytes := to_nbytes P size }
      let sock := send_packet sv.sock (Packet.header header)
      Except.ok { sv with sock := send_packet sock (Packet.payload buffer) }

/-- The function `reply_put` of cixd.cpp.  The array `packet` has the size
the header of the peer announces and lies on the stack; it is set up before
the payload is received. -/
def reply_put (sv : Server) (header : cix_header) : Except Failure Server :=
  if sv.stack < header.nbytes then Except.error Failure.stack_overflow
  else
    match recv_packet sv.sock header.nbytes with
    | none => Except.error Failure.socket_error
    | some (packet, sock) =>
      match ofstream sv.fs (c_str header.filename) with
      | none =>
        let header := { header with command := cix_command.NAK }
        Except.ok { sv with sock := send_packet sock (Packet.header header) }
      | some fs =>
        let header := { header with command := cix_command.ACK }
        Except.ok { sv with fs := ofstream_write fs (c_str header.filename) packet
                            sock := send_packet sock (Packet.header header) }

/-- The function `reply_rm` of cixd.cpp: `remove` is the result of `unlink`
converted to `bool`. -/
def reply_rm (sv : Server) (header : cix_header) : Except Failure Server :=
  let rc := unlink sv.fs (c_str header.filename)
  let remove : Bool := rc.1 != 0
  if remove then
    let header := { header with command := cix_command.NAK }
    Except.ok { sv with fs := rc.2, sock := send_packet sv.sock (Packet.header header) }
  else
    let header := { header with command := cix_command.ACK }
    Except.ok { sv with fs := rc.2, sock := send_packet sv.sock (Packet.header header) }

/-- The body of the loop of `run_server` after the header has been received:
the `switch` on `header.command`. -/
def run_server_switch (P : Protocol) (popen_ls : FileSystem → Except Nat (List Byte))
    (sv : Server) (header : cix_header) : Except Failure Server :=
  match header.command with
  | cix_command.LS => reply_ls P popen_ls sv header
  | cix_command.GET => reply_get P sv header
  | cix_command.PUT => reply_put sv header
  | cix_command.RM => reply_rm sv header
  | _ => Except.ok sv

/-- How a session of `run_server` ends: the state of the worker then, and what
ended the loop. -/
structure Finish where
  server : Server
  cause : Failure

/-- The loop `for (;;)` of `run_server`, with a bound on the number of
iterations: `none` when the bound is used up, else the state in which the
loop ends, by a `socket_error` (which `run_server` catches) or by the death of
the process. -/
def run_server_loop (P : Protocol) (popen_ls : FileSystem → Except Nat (List Byte)) :
    Nat → Server → Option Finish
  | 0, _ => none
  | fuel + 1, sv =>
    match recv_header P sv.sock with
    | none => some { server := sv, cause := Failure.socket_error }
    | some (header, sock) =>
      match run_server_switch P popen_ls { sv with sock := sock } header with
      | Except.error cause => some { server := { sv with sock := sock }, cause := cause }
      | Except.ok sv1 => run_server_loop P popen_ls fuel sv1

/-- The function `run_server` of cixd.cpp: every iteration takes a header of
`HEADER_SIZE` bytes from the socket, so one more iteration than there are
bytes is enough. -/
def run_server (P : Protocol) (popen_ls : FileSystem → Except Nat (List Byte))
    (sv : Server) : Option Finish :=
  run_server_loop P popen_ls (sv.sock.inbox.length + 1) sv

/-- The children of the daemon as the kernel sees them: the process ids of
the workers that have finished and are not yet reaped, and of those that
still run. -/
structure Children where
  finished : List Int
  running : List Int
  deriving DecidableEq, Repr

/-- The call `waitpid (-1, &status, WNOHANG)`: one finished worker is
removed and its process id returned; with none finished the result is `0`
while workers still run and `-1` when there is no child at all. -/
def waitpid (k : Children) : Int × Children :=
  match k.finished with
  | pid :: others => (pid, { k with finished := others })
  | [] => (if k.running = [] then -1 else 0, k)

/-- The loop of `reap_zombies` with a bound on the number of iterations:
`none` when the bound is used up, else the children left and the process ids
written to the log, oldest first. -/
def reap_zombies_loop : Nat → Children → List Int → Option (Children × List Int)
  | 0, _, _ => none
  | fuel + 1, k, logged =>
    let r := waitpid k
    let child := r.1
    if child ≤ 0 then some (r.2, logged)
    else reap_zombies_loop fuel r.2 (logged ++ [child])

/-- The function `reap_zombies` of cixd.cpp: each iteration but the last
reaps one finished worker, so one more iteration than there are finished
workers is enough. -/
def reap_zombies (k : Children) : Option (Children × List Int) :=
  reap_zombies_loop (k.finished.length + 1) k []

end Daemon

namespace Client

/-! ## cix.cpp -/

/-- The state of the client: its working directory, the socket `server`, the
number of characters stored so far past the end of the filename array of a
header, and `stack`, the number of bytes the stack has left for an array of
run-time size once the fixed frames of a call are in place.  A store past the
filename array is counted and the call goes on: the header object is the last
thing the characters could have changed before it is sent. -/
structure Session where
  fs : FileSystem
  sock : Socket
  overrun : Nat
  stack : Nat

/-- How a call of one of the command functions ends: it returns, it throws
`socket_error`, an array does not fit the stack and the process is killed, or
it has no defined behaviour. -/
inductive Status where
  | ok | socket_error | stack_overflow | undefined
  deriving DecidableEq, Repr

/-- The state a command function leaves, with the way it ended. -/
structure Result where
  session : Session
  status : Status

/-- The character that starts a conversion specification. -/
def PERCENT : Char := Char.ofNat 37

/-- The output of the printf family for a format when no argument follows
it: an ordinary character is copied, two percent signs give one, and any other
conversion asks for an argument that is not there (`none`). -/
def format_plain : List Char → Option (List Char)
  | [] => some []
  | [c] => if c = PERCENT then none else some [c]
  | c :: d :: rest =>
    if c = PERCENT then
      if d = PERCENT then (format_plain rest).map (fun out => PERCENT :: out) else none
    else (format_plain (d :: rest)).map (fun out => c :: out)

/-- The characters that `snprintf (dst, size, fmt)` stores from `dst` on when
no argument follows the format: at most `size - 1` characters of the output
and a NUL; `none` when the format has no defined output. -/
def snprintf (size : Nat) (fmt : List Char) : Option (List Char) :=
  match format_plain (c_str fmt) with
  | none => none
  | some out => some (if size = 0 then [] else out.take (size - 1) ++ [NUL])

/-- The memory from the start of a character array on, after the characters
`w` have been stored there; it is longer than the array when `w` is. -/
def store (array : List Char) (w : List Char) : List Char :=
  w ++ array.drop w.length

/-- The function `cix_ls` of cix.cpp.  The buffer of `nbytes + 1` characters
is taken to be allocated as written. -/
def cix_ls (P : Protocol) (c : Session) : Result :=
  let header := { P.header_init with command := cix_command.LS }
  let sock := send_packet c.sock (Packet.header header)
  match recv_header P sock with
  | none => { session := { c with sock := sock }, status := Status.socket_error }
  | some (header, sock1) =>
    if header.command ≠ cix_command.LSOUT then
      { session := { c with sock := sock1 }, status := Status.ok }
    else
      match recv_packet sock1 header.nbytes with
      | none => { session := { c with sock := sock1 }, status := Status.socket_error }
      | some (_, sock2) => { session := { c with sock := sock2 }, status := Status.ok }

/-- The function `cix_get` of cix.cpp.  The local file is opened under the
C string of `filename`; a `write` on a stream that failed to open does
nothing.  The array `buffer` of `nbytes + 1` characters lies on the stack. -/
def cix_get (P : Protocol) (c : Session) (filename : List Char) : Result :=
  match snprintf (filename.length + 1) filename with
  | none => { session := c, status := Status.undefined }
  | some w =>
    let memory := store P.header_init.filename w
    let header : cix_header :=
      { P.header_init with command := cix_command.GET
                           filename := memory.take P.FILENAME_SIZE }
    let c := { c with overrun := c.overrun + (w.length - P.FILENAME_SIZE) }
    let sock := send_packet c.sock (Packet.header header)
    match recv_header P sock with
    | none => { session := { c with sock := sock }, status := Status.socket_error }
    | some (header, sock1) =>
      if header.command ≠ cix_command.FILEOUT then
        { session := { c with sock := sock1 }, status := Status.ok }
      else if c.stack < header.nbytes + 1 then
        { session := { c with sock := sock1 }, status := Status.stack_overflow }
      else
        match recv_packet sock1 header.nbytes with
        | none => { session := { c with sock := sock1 }, status := Status.socket_error }
        | some (buffer, sock2) =>
          match ofstream c.fs (c_str filename) with
          | none => { session := { c with sock := sock2 }, status := Status.ok }
          | some fs =>
            { session := { c with sock := sock2
                                  fs := ofstream_write fs (c_str filename) buffer }
              status := Status.ok }

/-- The conversion of a file position to `int`: the value modulo `2 ^ 32`,
taken in the range from `- 2 ^ 31` up to `2 ^ 31 - 1`. -/
def to_int (n : Nat) : Int :=
  ((n + 2 ^ 31) % 2 ^ 32 : Nat) - 2 ^ 31

/-- The function `cix_put` of cix.cpp.  The local file is opened under the
C string found at `header.filename`.  The array `buffer` has the size of the
file and lies on the stack; an array of negative size has no defined
behaviour. -/
def cix_put (P : Protocol) (c : Session) (filename : List Char) : Result :=
  match snprintf (filename.length + 1) filename with
  | none => { session := c, status := Status.undefined }
  | some w =>
    let memory := store P.header_init.filename w
    let c := { c with overrun := c.overrun + (w.length - P.FILENAME_SIZE) }
    match ifstream c.fs (c_str memory) with
    | none => { session := c, status := Status.ok }
    | some content =>
      let size : Int := to_int content.length
      if size < 0 then { session := c, status := Status.undefined }
      else if c.stack < size.toNat then { session := c, status := Status.stack_overflow }
      else
        let buffer := content.take size.toNat
        let header : cix_header :=
          { command := cix_command.PUT
            nbytes := to_nbytes P size.toNat
            filename := memory.take P.FILENAME_SIZE }
        let sock := send_packet c.sock (Packet.header header)
        let sock := send_packet sock (Packet.payload buffer)
        match recv_header P sock with
        | none => { session := { c with sock := sock }, status := Status.socket_error }
        | some (_, sock1) => { session := { c with sock := sock1 }, status := Status.ok }

/-- The function `cix_rm` of cix.cpp. -/
def cix_rm (P : Protocol) (c : Session) (filename : List Char) : Result :=
  match snprintf (filename.length + 1) filename with
  | none => { session := c, status := Status.undefined }
  | some w =>
    let memory := store P.header_init.filename w
    let header : cix_header :=
      { P.header_init with command := cix_command.RM
                           filename := memory.take P.FILENAME_SIZE }
    let c := { c with overrun := c.overrun + (w.length - P.FILENAME_SIZE) }
    let sock := send_packet c.sock (Packet.header header)
    match recv_header P sock with
    | none => { session := { c with sock := sock }, status := Status.socket_error }
    | some (_, sock1) => { session := { c with sock := sock1 }, status := Status.ok }

/-- The table `command_map` of cix.cpp. -/
def command_map : List (List Char × cix_command) :=
  [ ("exit".toList, cix_command.EXIT),
    ("help".toList, cix_command.HELP),
    ("ls".toList, cix_command.LS),
    ("get".toList, cix_command.GET),
    ("put".toList, cix_command.PUT),
    ("rm".toList, cix_command.RM) ]

/-- The lookup `command_map.find (word)`, `none` for `command_map.end ()`. -/
def command_map_find (word : List Char) : Option cix_command :=
  command_map.lookup word

/-- The separator of the words of a command line. -/
def SPACE : Char := Char.ofNat 32

/-- The loop `while (getline (string_stream, name, SPACE)) push_back (name)`
over the rest of a line, `name` being the characters taken since the last
separator.  At the end of the line a word is delivered only when at least one
character was taken for it. -/
def getline_words : List Char → List Char → List (List Char)
  | [], name => if name = [] then [] else [name]
  | ch :: rest, name =>
    if ch = SPACE then name :: getline_words rest [] else getline_words rest (name ++ [ch])

/-- How the session loop of `main` ends: `cix_exit` thrown for the command
`exit`, `cix_exit` thrown at the end of the input, a `socket_error`, the death
of the process on an array that does not fit the stack, an access
`name_container[i]` with `i` not below the size of the vector, or another step
without defined behaviour. -/
inductive Ending where
  | cix_exit_command | cix_exit_eof | socket_error | stack_overflow | out_of_range
  | undefined
  deriving DecidableEq, Repr

/-- What a run of the session loop leaves: the state, the way the loop ended,
the value of `cmd` in each iteration that reached the `switch`, and the lines
that were never read. -/
structure Run where
  session : Session
  ending : Ending
  dispatched : List cix_command
  unread : List (List Char)

/-- The end of one `case` that called a command function: the loop goes on
when the function returned, and ends on a `socket_error`, on the death of the
process or on an undefined step. -/
def after_command (cmd : cix_command) (r : Result) (unread : List (List Char))
    (next : Run) : Run :=
  match r.status with
  | Status.ok => { next with dispatched := cmd :: next.dispatched }
  | Status.socket_error =>
    { session := r.session, ending := Ending.socket_error, dispatched := [cmd],
      unread := unread }
  | Status.stack_overflow =>
    { session := r.session, ending := Ending.stack_overflow, dispatched := [cmd],
      unread := unread }
  | Status.undefined =>
    { session := r.session, ending := Ending.undefined, dispatched := [cmd],
      unread := unread }

/-- The session loop `for (;;)` of `main` in cix.cpp.  The input is the list
of the complete lines of `cin`; after the last one `getline` sets `eof`.
`name_container` is the vector of that name, which lives across iterations. -/
def main_loop (P : Protocol) : List (List Char) → List (List Char) → Session → Run
  | [], _, c =>
    { session := c, ending := Ending.cix_exit_eof, dispatched := [], unread := [] }
  | line :: rest, name_container, c =>
    let name_container := name_container ++ getline_words line []
    match name_container.get? 0 with
    | none =>
      { session := c, ending := Ending.out_of_range, dispatched := [], unread := rest }
    | some word =>
      let cmd := (command_map_find word).getD cix_command.ERROR
      match cmd with
      | cix_command.EXIT =>
        { session := c, ending := Ending.cix_exit_command, dispatched := [cmd],
          unread := rest }
      | cix_command.HELP =>
        let next := main_loop P rest [] c
        { next with dispatched := cmd :: next.dispatched }
      | cix_command.LS =>
        let r := cix_ls P c
        after_command cmd r rest (main_loop P rest [] r.session)
      | cix_command.GET =>
        match name_container.get? 1 with
        | none =>
          { session := c, ending := Ending.out_of_range, dispatched := [cmd], unread := rest }
        | some filename =>
          let r := cix_get P c filename
          after_command cmd r rest (main_loop P rest [] r.session)
      | cix_command.PUT =>
        match name_container.get? 1 with
        | none =>
          { session := c, ending := Ending.out_of_range, dispatched := [cmd], unread := rest }
        | some filename =>
          let r := cix_put P c filename
          after_command cmd r rest (main_loop P rest [] r.session)
      | cix_command.RM =>
        match name_container.get? 1 with
        | none =>
          { session := c, ending := Ending.out_of_range, dispatched := [cmd], unread := rest }
        | some filename =>
          let r := cix_rm P c filename
          after_command cmd r rest (main_loop P rest [] r.session)
      | _ =>
        let next := main_loop P rest name_container c
        { next with dispatched := cmd :: next.dispatched }

/-- The part of `main` of cix.cpp from the connection on: the session loop
started with an empty `name_container`. -/
def main (P : Protocol) (lines : List (List Char)) (c : Session) : Run :=
  main_loop P lines [] c

end Client

/-! ## A concrete protocol and concrete states, for the examples -/

/-- One numbering of the tags, used only by the example protocol. -/
def example_tag : Nat → cix_command
  | 1 => cix_command.EXIT
  | 2 => cix_command.GET
  | 3 => cix_command.HELP
  | 4 => cix_command.LS
  | 5 => cix_command.PUT
  | 6 => cix_command.RM
  | 7 => cix_command.FILEOUT
  | 8 => cix_command.LSOUT
  | 9 => cix_command.ACK
  | 10 => cix_command.NAK
  | _ => cix_command.ERROR

/-- One layout of a header block: `nbytes` in the first four bytes, low byte
first, the tag in the fifth, the filename array in the rest.  Used only by the
example protocol. -/
def example_decode (block : List Byte) : cix_header :=
  { nbytes := (block.getD 0 0).val + 256 * (block.getD 1 0).val
      + 65536 * (block.getD 2 0).val + 16777216 * (block.getD 3 0).val
    command := example_tag (block.getD 4 0).val
    filename := (block.drop 5).map (fun b => Char.ofNat b.val) }

/-- A protocol with a filename array of 59 characters in a header of 64 bytes
and an `nbytes` field of 32 bits. -/
def example_protocol : Protocol :=
  { FILENAME_SIZE := 59
    HEADER_SIZE := 64
    NBYTES_BITS := 32
    header_init :=
      { nbytes := 0, command := cix_command.ERROR, filename := List.replicate 59 NUL }
    decode := example_decode }

/-- A header block of the example protocol with `nbytes = 0`, the tag of the
given number and an empty filename. -/
def example_block (tag : Byte) : List Byte :=
  [0, 0, 0, 0, tag] ++ List.replicate 59 0

/-- A header block of the example protocol with the four bytes of `nbytes`,
the number of the tag, and the bytes of a name, filled up with NUL. -/
def example_request_block (b0 b1 b2 b3 tag : Byte) (name : List Byte) : List Byte :=
  [b0, b1, b2, b3, tag] ++ name ++ List.replicate (59 - name.length) 0

/-- The bytes of the name `notes.txt`. -/
def notes_name_bytes : List Byte :=
  [110, 111, 116, 101, 115, 46, 116, 120, 116]

/-- The header block of a PUT of three bytes to `notes.txt`. -/
def notes_put_block : List Byte :=
  example_request_block 3 0 0 0 5 notes_name_bytes

/-- The header block of a PUT of `2 ^ 23` bytes, eight mebibytes, to
`notes.txt`. -/
def large_put_block : List Byte :=
  example_request_block 0 0 128 0 5 notes_name_bytes

/-- A payload of `2 ^ 23` bytes. -/
def large_payload : List Byte :=
  List.replicate 8388608 0

/-- An empty directory in which every file may be created and removed. -/
def empty_directory : FileSystem :=
  { files := fun _ => none, may_create := fun _ => true, may_unlink := fun _ => true }

/-- A directory with the single file `notes.txt`, which holds `abc`. -/
def notes_directory : FileSystem :=
  empty_directory.set "notes.txt".toList
    (some { content := [97, 98, 99], readable := true, writable := true })

/-- A file content of `2 ^ 31` bytes. -/
def big_content : List Byte :=
  List.replicate (2 ^ 31) 0

/-- A directory with the single file `big`, of `2 ^ 31` bytes. -/
def big_directory : FileSystem :=
  empty_directory.set "big".toList
    (some { content := big_content, readable := true, writable := true })

/-- A stack room of eight million bytes: what is left of the usual limit of
eight mebibytes once the frames in use are taken off. -/
def example_stack : Nat := 8000000

/-- A socket on which nothing has been sent and the peer delivers `inbox`. -/
def fresh_socket (inbox : List Byte) : Socket :=
  { inbox := inbox, sent := [] }

/-- The filename array that holds `notes.txt` and is NUL from there on. -/
def notes_field : List Char :=
  "notes.txt".toList ++ List.replicate 50 NUL

/-- The request header of the scenario of the spec: PUT of three bytes to
`notes.txt`. -/
def notes_put : cix_header :=
  { nbytes := 3, command := cix_command.PUT, filename := notes_field }

/-- The C strings held in the filename arrays of the headers sent. -/
def filenames_sent : List Packet → List (List Char)
  | [] => []
  | Packet.header h :: ps => c_str h.filename :: filenames_sent ps
  | Packet.payload _ :: ps => filenames_sent ps

/-- The worker state of the scenario of the spec: an empty directory and the
three payload bytes `abc` on the socket. -/
def notes_server : Daemon.Server :=
  { fs := empty_directory, sock := fresh_socket [97, 98, 99], stack := example_stack }

/-- A GET request for `notes.txt`. -/
def notes_get : cix_header :=
  { nbytes := 0, command := cix_command.GET, filename := notes_field }

/-- An RM request for `notes.txt`. -/
def notes_rm : cix_header :=
  { nbytes := 0, command := cix_command.RM, filename := notes_field }

/-- A listing helper that always delivers the same eight bytes. -/
def example_ls : FileSystem → Except Nat (List Byte) :=
  fun _ => Except.ok [116, 111, 116, 97, 108, 32, 48, 10]

/-- A client in a directory that holds `notes.txt`, on a socket on which the
server delivers nothing. -/
def notes_client : Client.Session :=
  { fs := notes_directory, sock := fresh_socket [], overrun := 0, stack := example_stack }

/-- A client in a directory that holds the file `big`. -/
def big_client : Client.Session :=
  { fs := big_directory, sock := fresh_socket [], overrun := 0, stack := example_stack }

open Daemon Client

/-! ## Lemmas on the socket -/

/-- Headers are counted packet by packet. -/
theorem headers_sent_append (xs ys : List Packet) :
    headers_sent (xs ++ ys) = headers_sent xs + headers_sent ys := by
  induction xs with
  | nil => simp [headers_sent]
  | cons p ps ih =>
    cases p
    · simp [headers_sent, ih]; omega
    · simp [headers_sent, ih]

/-- A receive of as many bytes as the front of the inbox has delivers that
front. -/
theorem recv_packet_append (s : Socket) (front rest : List Byte)
    (h : s.inbox = front ++ rest) :
    recv_packet s front.length = some (front, { s with inbox := rest }) := by
  simp [recv_packet, h]

/-- A header block at the front of the inbox is received and decoded. -/
theorem recv_header_append (P : Protocol) (s : Socket) (block rest : List Byte)
    (hblock : block.length = P.HEADER_SIZE) (hin : s.inbox = block ++ rest) :
    recv_header P s = some (P.decode block, { s with inbox := rest }) := by
  simp [recv_header, recv_packet, hin, ← hblock]

/-- A receive sends nothing. -/
theorem recv_packet_sent (s s1 : Socket) (n : Nat) (b : List Byte)
    (h : recv_packet s n = some (b, s1)) : s1.sent = s.sent := by
  unfold recv_packet at h
  split at h
  · cases h; rfl
  · cases h

/-- A receive does not lengthen the inbox, and shortens it by the number of
bytes asked for. -/
theorem recv_packet_inbox (s s1 : Socket) (n : Nat) (b : List Byte)
    (h : recv_packet s n = some (b, s1)) : s1.inbox.length + n = s.inbox.length := by
  unfold recv_packet at h
  split at h
  · cases h; simp; omega
  · cases h

/-- The receive of a header sends nothing. -/
theorem recv_header_sent (P : Protocol) (s s1 : Socket) (hd : cix_header)
    (h : recv_header P s = some (hd, s1)) : s1.sent = s.sent := by
  unfold recv_header at h
  cases hr : recv_packet s P.HEADER_SIZE with
  | none => simp [hr] at h
  | some r =>
    obtain ⟨b, s2⟩ := r
    simp [hr] at h
    rw [← h.2]
    exact recv_packet_sent s s2 _ b hr

/-- The receive of a header takes `HEADER_SIZE` bytes from the inbox. -/
theorem recv_header_inbox (P : Protocol) (s s1 : Socket) (hd : cix_header)
    (h : recv_header P s = some (hd, s1)) :
    s1.inbox.length + P.HEADER_SIZE = s.inbox.length := by
  unfold recv_header at h
  cases hr : recv_packet s P.HEADER_SIZE with
  | none => simp [hr] at h
  | some r =>
    obtain ⟨b, s2⟩ := r
    simp [hr] at h
    rw [← h.2]
    exact recv_packet_inbox s s2 _ b hr

/-! ## Lemmas on the daemon -/

/-- What `reply_get` does for a file that opens and whose buffer fits the
stack. -/
theorem reply_get_of_open (P : Protocol) (sv : Server) (header : cix_header)
    (buffer : List Byte) (h : ifstream sv.fs (c_str header.filename) = some buffer)
    (hroom : buffer.length ≤ sv.stack) :
    reply_get P sv header = Except.ok
      { sv with sock := { sv.sock with sent := sv.sock.sent ++
          [Packet.header { header with command := cix_command.FILEOUT,
                                       nbytes := to_nbytes P buffer.length },
           Packet.payload buffer] } } := by
  have hnot : ¬ sv.stack < buffer.length := by omega
  simp [reply_get, h, hnot, send_packet]

/-- Whatever `reply_get` sends when it returns: the header NAK alone, or the
header FILEOUT with the size of a file that fits the stack and, right after
it, the bytes of that file. -/
theorem reply_get_answered (P : Protocol) (sv sv1 : Server) (header : cix_header)
    (h : reply_get P sv header = Except.ok sv1) :
    sv1 = { sv with sock := { sv.sock with sent := sv.sock.sent ++
        [Packet.header { header with command := cix_command.NAK }] } }
    ∨ ∃ buffer, ifstream sv.fs (c_str header.filename) = some buffer
        ∧ buffer.length ≤ sv.stack
        ∧ sv1 = { sv with sock := { sv.sock with sent := sv.sock.sent ++
            [Packet.header { header with command := cix_command.FILEOUT,
                                         nbytes := to_nbytes P buffer.length },
             Packet.payload buffer] } } := by
  unfold reply_get at h
  cases ho : ifstream sv.fs (c_str header.filename) with
  | none =>
    simp [ho, send_packet] at h
    exact Or.inl h.symm
  | some buffer =>
    simp only [ho] at h
    by_cases hbig : sv.stack < buffer.length
    · simp [hbig] at h
    · simp [hbig, send_packet] at h
      exact Or.inr ⟨buffer, rfl, by omega, h.symm⟩

/-- What `reply_put` does when the payload announced by the header arrives
and its buffer fits the stack. -/
theorem reply_put_of_payload (sv : Server) (header : cix_header) (payload rest : List Byte)
    (hn : header.nbytes = payload.length) (hin : sv.sock.inbox = payload ++ rest)
    (hroom : header.nbytes ≤ sv.stack) :
    reply_put sv header =
      match ofstream sv.fs (c_str header.filename) with
      | none => Except.ok
        { sv with sock := { inbox := rest, sent := sv.sock.sent ++
            [Packet.header { header with command := cix_command.NAK }] } }
      | some fs => Except.ok
        { sv with
          fs := ofstream_write fs (c_str header.filename) payload
          sock := { inbox := rest, sent := sv.sock.sent ++
            [Packet.header { header with command := cix_command.ACK }] } } := by
  have hrecv := recv_packet_append sv.sock payload rest hin
  have hnot : ¬ sv.stack < payload.length := by omega
  simp only [reply_put, hn, hrecv, hnot, if_false]
  cases ofstream sv.fs (c_str header.filename) <;> simp [send_packet]

/-- Whatever `reply_put` sends when it returns: one packet, the request header
with the command ACK when the file could be opened for writing and NAK when
not.  It returns only when the buffer fits the stack and the payload has
arrived. -/
theorem reply_put_answered (sv sv1 : Server) (header : cix_header)
    (h : reply_put sv header = Except.ok sv1) :
    sv1.sock.sent = sv.sock.sent ++
      [Packet.header { header with
        command := if (ofstream sv.fs (c_str header.filename)).isSome
          then cix_command.ACK else cix_command.NAK }]
    ∧ header.nbytes ≤ sv.stack ∧ header.nbytes ≤ sv.sock.inbox.length
    ∧ sv1.sock.inbox = sv.sock.inbox.drop header.nbytes := by
  unfold reply_put at h
  by_cases hbig : sv.stack < header.nbytes
  · simp [hbig] at h
  · simp only [hbig, if_false] at h
    by_cases hle : header.nbytes ≤ sv.sock.inbox.length
    · simp only [recv_packet, hle, if_true] at h
      cases ho : ofstream sv.fs (c_str header.filename) with
      | none =>
        simp [ho, send_packet] at h
        subst h
        exact ⟨by simp, by omega, hle, rfl⟩
      | some fs =>
        simp [ho, send_packet] at h
        subst h
        exact ⟨by simp, by omega, hle, rfl⟩
    · simp [recv_packet, hle] at h

/-- Whatever `reply_rm` and `reply_ls` do, they return. -/
theorem reply_rm_returns (sv : Server) (header : cix_header) :
    ∃ sv1, reply_rm sv header = Except.ok sv1 := by
  simp only [reply_rm]
  split <;> exact ⟨_, rfl⟩

/-- The function `reply_ls` returns. -/
theorem reply_ls_returns (P : Protocol) (popen_ls : FileSystem → Except Nat (List Byte))
    (sv : Server) (header : cix_header) :
    ∃ sv1, reply_ls P popen_ls sv header = Except.ok sv1 := by
  unfold reply_ls
  split <;> exact ⟨_, rfl⟩

/-- A branch of the `switch` for one of the four requests, when it returns,
has sent exactly one header. -/
theorem run_server_switch_sends_one (P : Protocol)
    (popen_ls : FileSystem → Except Nat (List Byte)) (sv sv1 : Server) (header : cix_header)
    (hcmd : header.command ∈
      [cix_command.LS, cix_command.GET, cix_command.PUT, cix_command.RM])
    (h : run_server_switch P popen_ls sv header = Except.ok sv1) :
    headers_sent sv1.sock.sent = headers_sent sv.sock.sent + 1 := by
  unfold run_server_switch at h
  cases hc : header.command <;> simp [hc] at hcmd <;> simp only [hc] at h
  · rcases reply_get_answered P sv sv1 header h with h1 | ⟨buffer, _, _, h1⟩ <;>
      (subst h1; simp [headers_sent_append, headers_sent])
  · simp only [reply_ls] at h
    split at h <;>
      (simp [send_packet] at h; subst h; simp [headers_sent_append, headers_sent])
  · rw [(reply_put_answered sv sv1 header h).1]
    simp [headers_sent_append, headers_sent]
  · simp only [reply_rm] at h
    split at h <;>
      (simp [send_packet] at h; subst h; simp [headers_sent_append, headers_sent])

/-- No branch of the `switch` lengthens the inbox. -/
theorem run_server_switch_inbox (P : Protocol)
    (popen_ls : FileSystem → Except Nat (List Byte)) (sv sv1 : Server) (header : cix_header)
    (h : run_server_switch P popen_ls sv header = Except.ok sv1) :
    sv1.sock.inbox.length ≤ sv.sock.inbox.length := by
  unfold run_server_switch at h
  cases hc : header.command <;> simp only [hc] at h
  case GET =>
    rcases reply_get_answered P sv sv1 header h with h1 | ⟨buffer, _, _, h1⟩ <;>
      (subst h1; simp)
  case LS =>
    simp only [reply_ls] at h
    split at h <;> (simp [send_packet] at h; subst h; simp)
  case PUT =>
    rw [(reply_put_answered sv sv1 header h).2.2.2]
    simp
  case RM =>
    simp only [reply_rm] at h
    split at h <;> (simp [send_packet] at h; subst h; simp)
  all_goals (simp at h; subst h; simp)

/-- The loop of `run_server` returns once the bound exceeds the number of
bytes in the inbox, the header having at least one byte. -/
theorem run_server_loop_returns (P : Protocol)
    (popen_ls : FileSystem → Except Nat (List Byte)) (hsize : 0 < P.HEADER_SIZE) :
    ∀ (fuel : Nat) (sv : Server), sv.sock.inbox.length < fuel →
      ∃ fin, run_server_loop P popen_ls fuel sv = some fin := by
  intro fuel
  induction fuel with
  | zero => intro sv h; omega
  | succ n ih =>
    intro sv hlt
    simp only [run_server_loop]
    cases hr : recv_header P sv.sock with
    | none => exact ⟨_, rfl⟩
    | some r =>
      obtain ⟨header, sock⟩ := r
      have hin := recv_header_inbox P sv.sock sock header hr
      simp only []
      cases hs : run_server_switch P popen_ls { sv with sock := sock } header with
      | error cause => exact ⟨_, rfl⟩
      | ok sv1 =>
        have hle := run_server_switch_inbox P popen_ls _ sv1 header hs
        simp only [] at hle
        exact ih sv1 (by omega)

/-- A result of the loop of `run_server` does not depend on the bound: a
larger bound gives the same. -/
theorem run_server_loop_mono (P : Protocol)
    (popen_ls : FileSystem → Except Nat (List Byte)) :
    ∀ (fuel : Nat) (sv : Server) (fin : Finish),
      run_server_loop P popen_ls fuel sv = some fin →
      ∀ more, run_server_loop P popen_ls (fuel + more) sv = some fin := by
  intro fuel
  induction fuel with
  | zero => intro sv fin h; simp [run_server_loop] at h
  | succ n ih =>
    intro sv fin h more
    have hfuel : n + 1 + more = (n + more) + 1 := by omega
    rw [hfuel]
    simp only [run_server_loop] at h ⊢
    cases hr : recv_header P sv.sock with
    | none => simpa [hr] using h
    | some r =>
      obtain ⟨header, sock⟩ := r
      simp only [hr] at h ⊢
      cases hs : run_server_switch P popen_ls { sv with sock := sock } header with
      | error cause => simpa [hs] using h
      | ok sv1 =>
        simp only [hs] at h ⊢
        exact ih sv1 fin h more

/-- With a bound above the number of bytes in the inbox the loop gives the
result of `run_server`. -/
theorem run_server_loop_enough (P : Protocol)
    (popen_ls : FileSystem → Except Nat (List Byte)) (hsize : 0 < P.HEADER_SIZE)
    (fuel : Nat) (sv : Server) (hfuel : sv.sock.inbox.length < fuel) :
    run_server_loop P popen_ls fuel sv = run_server P popen_ls sv := by
  obtain ⟨fin, hfin⟩ :=
    run_server_loop_returns P popen_ls hsize (sv.sock.inbox.length + 1) sv (Nat.lt_succ_self _)
  have h := run_server_loop_mono P popen_ls _ sv fin hfin (fuel - (sv.sock.inbox.length + 1))
  have he : sv.sock.inbox.length + 1 + (fuel - (sv.sock.inbox.length + 1)) = fuel := by omega
  rw [he] at h
  rw [h, run_server, hfin]

/-- The function `run_server` returns for every finite input. -/
theorem run_server_returns (P : Protocol)
    (popen_ls : FileSystem → Except Nat (List Byte)) (hsize : 0 < P.HEADER_SIZE)
    (sv : Server) : ∃ fin, run_server P popen_ls sv = some fin :=
  run_server_loop_returns P popen_ls hsize _ sv (Nat.lt_succ_self _)

/-- One iteration of `run_server` on an inbox that starts with a header
block: the session ends there when the `switch` does not return, and goes on
as `run_server` from the state reached when it does. -/
theorem run_server_step (P : Protocol)
    (popen_ls : FileSystem → Except Nat (List Byte)) (hsize : 0 < P.HEADER_SIZE)
    (sv : Server) (block rest : List Byte)
    (hblock : block.length = P.HEADER_SIZE) (hin : sv.sock.inbox = block ++ rest) :
    run_server P popen_ls sv =
      match run_server_switch P popen_ls { sv with sock := { sv.sock with inbox := rest } }
          (P.decode block) with
      | Except.error cause =>
        some { server := { sv with sock := { sv.sock with inbox := rest } }, cause := cause }
      | Except.ok sv1 => run_server P popen_ls sv1 := by
  have hrecv := recv_header_append P sv.sock block rest hblock hin
  simp only [run_server, run_server_loop, hrecv]
  cases hs : run_server_switch P popen_ls { sv with sock := { sv.sock with inbox := rest } }
      (P.decode block) with
  | error cause => rfl
  | ok sv1 =>
    have hle := run_server_switch_inbox P popen_ls _ sv1 (P.decode block) hs
    simp only [] at hle ⊢
    have hlen : sv.sock.inbox.length = block.length + rest.length := by simp [hin]
    exact run_server_loop_enough P popen_ls hsize _ sv1 (by omega)

theorem reap_zombies_loop_all (finished : List Int) :
    ∀ (running logged : List Int) (fuel : Nat),
      (∀ pid ∈ finished, 0 < pid) → finished.length < fuel →
      reap_zombies_loop fuel { finished := finished, running := running } logged =
        some ({ finished := [], running := running }, logged ++ finished) := by
  induction finished with
  | nil =>
    intro running logged fuel _ hfuel
    obtain ⟨n, rfl⟩ : ∃ n, fuel = n + 1 := ⟨fuel - 1, by simp at hfuel; omega⟩
    simp only [reap_zombies_loop, waitpid]
    split <;> simp
  | cons pid others ih =>
    intro running logged fuel hpos hfuel
    obtain ⟨n, rfl⟩ : ∃ n, fuel = n + 1 := ⟨fuel - 1, by simp at hfuel; omega⟩
    have hp : 0 < pid := hpos pid (by simp)
    have hnot : ¬ pid ≤ 0 := by omega
    simp only [reap_zombies_loop, waitpid, hnot, if_false]
    rw [ih running (logged ++ [pid]) n (fun q hq => hpos q (by simp [hq]))
      (by simp at hfuel; omega)]
    simp

/-! ## Lemmas on the client -/

/-- The C string of a name without NUL that is followed by a NUL is the
name. -/
theorem c_str_of_terminated (name rest : List Char) (h : NUL ∉ name) :
    c_str (name ++ NUL :: rest) = name := by
  induction name with
  | nil => simp [c_str]
  | cons ch chs ih =>
    have hne : ch ≠ NUL := fun e => h (by simp [e])
    have hrest : NUL ∉ chs := fun e => h (by simp [e])
    have := ih hrest
    simp [c_str, List.takeWhile_cons, hne] at this ⊢
    exact this

/-- The C string of a name without NUL is the name. -/
theorem c_str_of_no_nul (name : List Char) (h : NUL ∉ name) : c_str name = name := by
  induction name with
  | nil => simp [c_str]
  | cons ch chs ih =>
    have hne : ch ≠ NUL := fun e => h (by simp [e])
    have hrest : NUL ∉ chs := fun e => h (by simp [e])
    have := ih hrest
    simp [c_str, List.takeWhile_cons, hne] at this ⊢
    exact this

/-- A format without a percent sign is printed as it is. -/
theorem format_plain_of_no_percent : ∀ (name : List Char), PERCENT ∉ name →
    format_plain name = some name
  | [], _ => by simp [format_plain]
  | [ch], h => by
    have hne : ch ≠ PERCENT := fun e => h (by simp [e])
    simp [format_plain, hne]
  | ch :: d :: rest, h => by
    have hne : ch ≠ PERCENT := fun e => h (by simp [e])
    have ih := format_plain_of_no_percent (d :: rest) (fun e => h (by simp [e]))
    simp [format_plain, hne, ih]

/-- The call `snprintf (dst, name.length () + 1, name.c_str ())` stores the
name and a NUL when the name has neither a percent sign nor a NUL. -/
theorem snprintf_of_plain (name : List Char) (hpct : PERCENT ∉ name) (hnul : NUL ∉ name) :
    snprintf (name.length + 1) name = some (name ++ [NUL]) := by
  simp [snprintf, c_str_of_no_nul name hnul, format_plain_of_no_percent name hpct]

/-- The array of a header after a short name and its NUL have been stored
starts with the name and the NUL. -/
theorem stored_field_take (P : Protocol) (name : List Char)
    (hshort : name.length < P.FILENAME_SIZE) :
    ((store P.header_init.filename (name ++ [NUL])).take P.FILENAME_SIZE).take
      (name.length + 1) = name ++ [NUL] := by
  simp only [store, List.take_take]
  rw [Nat.min_eq_left (by omega)]
  rw [List.take_append_of_le_length (by simp)]
  simp [List.take_of_length_le]

/-- The C string in the array of a header after a short name without NUL has
been stored is the name. -/
theorem stored_field_c_str (P : Protocol) (name : List Char)
    (hshort : name.length < P.FILENAME_SIZE) (hnul : NUL ∉ name) :
    c_str ((store P.header_init.filename (name ++ [NUL])).take P.FILENAME_SIZE) = name := by
  have h := stored_field_take P name hshort
  rw [← List.take_append_drop (name.length + 1)
    ((store P.header_init.filename (name ++ [NUL])).take P.FILENAME_SIZE), h]
  simpa using c_str_of_terminated name _ hnul

/-- The C string in the memory at the array of a header after a name without
NUL has been stored, however long, is the name. -/
theorem stored_memory_c_str (array name : List Char) (hnul : NUL ∉ name) :
    c_str (store array (name ++ [NUL])) = name := by
  simpa [store] using c_str_of_terminated name _ hnul

/-- What `cix_get` has sent and stored outside the array when it ends. -/
theorem cix_get_sent (P : Protocol) (c : Session) (filename w : List Char)
    (hw : snprintf (filename.length + 1) filename = some w) :
    (cix_get P c filename).session.sock.sent = c.sock.sent ++
      [Packet.header { P.header_init with
        command := cix_command.GET
        filename := (store P.header_init.filename w).take P.FILENAME_SIZE }]
    ∧ (cix_get P c filename).session.overrun = c.overrun + (w.length - P.FILENAME_SIZE) := by
  simp only [cix_get, hw]
  cases hr : recv_header P (send_packet c.sock (Packet.header
      { P.header_init with
        command := cix_command.GET
        filename := (store P.header_init.filename w).take P.FILENAME_SIZE })) with
  | none => simp [send_packet]
  | some r =>
    obtain ⟨hd, s1⟩ := r
    have h1 := recv_header_sent P _ s1 hd hr
    simp only [send_packet] at h1
    by_cases hc : hd.command = cix_command.FILEOUT
    · simp only [hc, ne_eq, not_true_eq_false, if_false]
      by_cases hbig : c.stack < hd.nbytes + 1
      · simp [hbig, h1]
      · simp only [hbig, if_false]
        cases hp : recv_packet s1 hd.nbytes with
        | none => simp [h1]
        | some r2 =>
          obtain ⟨buffer, s2⟩ := r2
          have h2 := recv_packet_sent s1 s2 _ buffer hp
          cases ofstream c.fs (c_str filename) <;> simp [h1, h2]
    · simp [hc, h1]

/-- What `cix_rm` has sent and stored outside the array when it ends. -/
theorem cix_rm_sent (P : Protocol) (c : Session) (filename w : List Char)
    (hw : snprintf (filename.length + 1) filename = some w) :
    (cix_rm P c filename).session.sock.sent = c.sock.sent ++
      [Packet.header { P.header_init with
        command := cix_command.RM
        filename := (store P.header_init.filename w).take P.FILENAME_SIZE }]
    ∧ (cix_rm P c filename).session.overrun = c.overrun + (w.length - P.FILENAME_SIZE) := by
  simp only [cix_rm, hw]
  cases hr : recv_header P (send_packet c.sock (Packet.header
      { P.header_init with
        command := cix_command.RM
        filename := (store P.header_init.filename w).take P.FILENAME_SIZE })) with
  | none => simp [send_packet]
  | some r =>
    obtain ⟨hd, s1⟩ := r
    have h1 := recv_header_sent P _ s1 hd hr
    simp only [send_packet] at h1
    simp [h1]

/-- A size below `2 ^ 31` is kept by the conversion to `int`. -/
theorem to_int_of_lt (n : Nat) (h : n < 2 ^ 31) : to_int n = n := by
  unfold to_int
  have : (n + 2 ^ 31) % 2 ^ 32 = n + 2 ^ 31 := Nat.mod_eq_of_lt (by omega)
  rw [this]
  push_cast
  omega

/-- What `cix_put` has sent when the local file opens, is shorter than
`2 ^ 31` bytes and fits the stack. -/
theorem cix_put_sent (P : Protocol) (c : Session) (filename w : List Char)
    (content : List Byte)
    (hw : snprintf (filename.length + 1) filename = some w)
    (hopen : ifstream c.fs (c_str (store P.header_init.filename w)) = some content)
    (hint : content.length < 2 ^ 31) (hroom : content.length ≤ c.stack) :
    (cix_put P c filename).session.sock.sent = c.sock.sent ++
      [Packet.header
        { command := cix_command.PUT
          nbytes := to_nbytes P content.length
          filename := (store P.header_init.filename w).take P.FILENAME_SIZE },
       Packet.payload content]
    ∧ (cix_put P c filename).status ≠ Status.undefined := by
  have hsize := to_int_of_lt content.length hint
  have hneg : ¬ ((content.length : Int) < 0) := by omega
  have hnot : ¬ c.stack < content.length := by omega
  simp only [cix_put, hw, hopen, hsize, hneg, hnot, if_false, Int.toNat_ofNat,
    List.take_length]
  cases hr : recv_header P (send_packet (send_packet c.sock (Packet.header
        { command := cix_command.PUT
          nbytes := to_nbytes P content.length
          filename := (store P.header_init.filename w).take P.FILENAME_SIZE }))
      (Packet.payload content)) with
  | none => simp [send_packet]
  | some r =>
    obtain ⟨hd, s1⟩ := r
    have h1 := recv_header_sent P _ s1 hd hr
    simp only [send_packet] at h1
    simp [h1]

/-- What `cix_put` has stored outside the array when it ends. -/
theorem cix_put_overrun (P : Protocol) (c : Session) (filename w : List Char)
    (hw : snprintf (filename.length + 1) filename = some w) :
    (cix_put P c filename).session.overrun = c.overrun + (w.length - P.FILENAME_SIZE) := by
  simp only [cix_put, hw]
  repeat' split
  all_goals simp

/-- Nothing is sent by `cix_put` when the local file does not open. -/
theorem cix_put_of_missing (P : Protocol) (c : Session) (filename w : List Char)
    (hw : snprintf (filename.length + 1) filename = some w)
    (hopen : ifstream c.fs (c_str (store P.header_init.filename w)) = none) :
    (cix_put P c filename).session.sock.sent = c.sock.sent := by
  simp only [cix_put, hw, hopen]

/-- Once the first word of `name_container` is not a command, the loop reads
every further line as an invalid command, up to the end of the input. -/
theorem main_loop_of_unknown_word (P : Protocol) (c : Session) (w : List Char)
    (hw : command_map_find w = none) :
    ∀ (lines : List (List Char)) (ws : List (List Char)),
      main_loop P lines (w :: ws) c =
        { session := c, ending := Ending.cix_exit_eof,
          dispatched := List.replicate lines.length cix_command.ERROR, unread := [] } := by
  intro lines
  induction lines with
  | nil => intro ws; simp [main_loop]
  | cons line rest ih =>
    intro ws
    simp only [main_loop, List.cons_append, List.get?_cons_zero, hw, Option.getD_none]
    rw [ih]
    simp [List.replicate_succ]

/-- The conversion to `int` never gives more than the size converted. -/
theorem to_int_le (n : Nat) : to_int n ≤ n := by
  unfold to_int
  have h : (n + 2 ^ 31) % 2 ^ 32 ≤ n + 2 ^ 31 := Nat.mod_le _ _
  omega

/-- A call of `cix_put` sends nothing, or a PUT header that carries a size
`n` and, right after it, the first `n` bytes of a file that has at least `n`
bytes. -/
theorem cix_put_framed (P : Protocol) (c : Session) (filename : List Char) :
    (cix_put P c filename).session.sock.sent = c.sock.sent
    ∨ ∃ (n : Nat) (content : List Byte) (field : List Char), n ≤ content.length
        ∧ (cix_put P c filename).session.sock.sent = c.sock.sent ++
            [Packet.header { command := cix_command.PUT, nbytes := to_nbytes P n,
                             filename := field },
             Packet.payload (content.take n)] := by
  unfold cix_put
  cases hw : snprintf (filename.length + 1) filename with
  | none => exact Or.inl rfl
  | some w =>
    simp only []
    cases hopen : ifstream c.fs (c_str (store P.header_init.filename w)) with
    | none => exact Or.inl rfl
    | some content =>
      simp only []
      by_cases hneg : to_int content.length < 0
      · left
        simp only [hneg, if_true]
      · simp only [hneg, if_false]
        by_cases hbig : c.stack < (to_int content.length).toNat
        · left
          simp only [hbig, if_true]
        simp only [hbig, if_false]
        refine Or.inr ⟨(to_int content.length).toNat, content,
          (store P.header_init.filename w).take P.FILENAME_SIZE, ?_, ?_⟩
        · have := to_int_le content.length
          omega
        · cases hr : recv_header P (send_packet (send_packet c.sock (Packet.header
              { command := cix_command.PUT
                nbytes := to_nbytes P (to_int content.length).toNat
                filename := (store P.header_init.filename w).take P.FILENAME_SIZE }))
              (Packet.payload (content.take (to_int content.length).toNat))) with
          | none => simp [send_packet]
          | some r =>
            obtain ⟨hd, s1⟩ := r
            have h1 := recv_header_sent P _ s1 hd hr
            simp only [send_packet] at h1
            simp [h1]

/-- The size of the bytes of the large example file. -/
theorem big_content_length : big_content.length = 2 ^ 31 :=
  List.length_replicate _ _

/-- A local file of `2 ^ 31` bytes fits an `nbytes` field of 32 bits, yet
`cix_put` sizes its buffer with a negative `int`: the step has no defined
behaviour and nothing is sent. -/
theorem cix_put_of_big_file :
    big_content.length < 2 ^ example_protocol.NBYTES_BITS
    ∧ ifstream big_client.fs "big".toList = some big_content
    ∧ (cix_put example_protocol big_client "big".toList).status = Status.undefined
    ∧ (cix_put example_protocol big_client "big".toList).session.sock.sent = [] := by
  have hw : snprintf ("big".toList.length + 1) "big".toList = some ("big".toList ++ [NUL]) := by
    decide
  have hname : c_str (store example_protocol.header_init.filename ("big".toList ++ [NUL]))
      = "big".toList := by decide
  have hopen : ifstream big_client.fs "big".toList = some big_content := by
    unfold ifstream big_client big_directory FileSystem.set
    simp only [if_true]
  have hsize : to_int big_content.length < 0 := by
    rw [big_content_length]
    decide
  have hopen2 : ifstream { big_client with overrun := big_client.overrun +
      (("big".toList ++ [NUL]).length - example_protocol.FILENAME_SIZE) }.fs "big".toList
      = some big_content := hopen
  refine ⟨?_, hopen, ?_, ?_⟩
  · rw [big_content_length]
    decide
  · simp only [cix_put, hw, hname, hopen2, hsize, if_true]
  · simp only [cix_put, hw, hname, hopen2, hsize, if_true]
    rfl

/-- The size of the large example payload. -/
theorem large_payload_length : large_payload.length = 8388608 :=
  List.length_replicate _ _

/-- The array of a header after a name of `FILENAME_SIZE` characters or more
and its NUL have been stored holds the first `FILENAME_SIZE` characters of the
name, and no NUL closes it. -/
theorem stored_field_of_long_name (P : Protocol) (name : List Char)
    (hlong : P.FILENAME_SIZE ≤ name.length) :
    (store P.header_init.filename (name ++ [NUL])).take P.FILENAME_SIZE
      = name.take P.FILENAME_SIZE := by
  simp only [store, List.append_assoc]
  exact List.take_append_of_le_length hlong

/-! ## The claims -/

/-- The round trip of the daemon for a payload that fits the stack.  A PUT
header whose `nbytes` is the length of the payload, handled by `reply_put` in
a directory where the file is absent and may be created, is answered by the
one header ACK and leaves exactly the payload under that name, every other
file as it was; a GET header for the same name, handled next by `reply_get`,
is answered by the header FILEOUT with `nbytes` the length of the payload,
followed by the payload. -/
theorem put_then_get_within_stack (P : Protocol) (sv : Server)
    (put_header get_header : cix_header) (payload rest : List Byte)
    (hfit : payload.length < 2 ^ P.NBYTES_BITS)
    (hroom : payload.length ≤ sv.stack)
    (hn : put_header.nbytes = payload.length)
    (hin : sv.sock.inbox = payload ++ rest)
    (habsent : sv.fs.files (c_str put_header.filename) = none)
    (hcreate : sv.fs.may_create (c_str put_header.filename) = true)
    (hname : c_str get_header.filename = c_str put_header.filename) :
    ∃ sv1 sv2,
      reply_put sv put_header = Except.ok sv1
      ∧ sv1.sock.sent = sv.sock.sent ++
          [Packet.header { put_header with command := cix_command.ACK }]
      ∧ sv1.sock.inbox = rest
      ∧ sv1.fs.files (c_str put_header.filename) =
          some { content := payload, readable := true, writable := true }
      ∧ (∀ n, n ≠ c_str put_header.filename → sv1.fs.files n = sv.fs.files n)
      ∧ reply_get P sv1 get_header = Except.ok sv2
      ∧ sv2.sock.sent = sv1.sock.sent ++
          [Packet.header { get_header with command := cix_command.FILEOUT,
                                           nbytes := payload.length },
           Packet.payload payload]
      ∧ sv2.fs = sv1.fs := by
  have hput := reply_put_of_payload sv put_header payload rest hn hin (by omega)
  simp only [ofstream, habsent, hcreate, if_true] at hput
  have hfile : (ofstream_write
      (sv.fs.set (c_str put_header.filename)
        (some { content := [], readable := true, writable := true }))
      (c_str put_header.filename) payload).files (c_str put_header.filename) =
      some { content := payload, readable := true, writable := true } := by
    simp [ofstream_write, FileSystem.set]
  have hopen : ifstream
      (ofstream_write
        (sv.fs.set (c_str put_header.filename)
          (some { content := [], readable := true, writable := true }))
        (c_str put_header.filename) payload) (c_str get_header.filename) = some payload := by
    simp only [ifstream, hname, hfile]
    rfl
  refine ⟨_, _, hput, rfl, rfl, hfile, ?_,
    reply_get_of_open P _ get_header payload hopen hroom, ?_, rfl⟩
  · intro n hne
    simp [ofstream_write, FileSystem.set, hne]
  · simp [to_nbytes, Nat.mod_eq_of_lt hfit]

/-- C1, what the code does instead: `reply_put` sets up the array `packet`
of `nbytes` bytes on the stack before it receives anything.  For a PUT header
that announces more bytes than the stack has room for, the worker is killed
there: no payload is received, no file is written, no ACK is sent, and the
session is over. -/
theorem put_of_large_payload_kills_worker (P : Protocol)
    (popen_ls : FileSystem → Except Nat (List Byte)) (sv : Server)
    (block rest : List Byte)
    (hsize : 0 < P.HEADER_SIZE)
    (hblock : block.length = P.HEADER_SIZE) (hin : sv.sock.inbox = block ++ rest)
    (hput : (P.decode block).command = cix_command.PUT)
    (hlarge : sv.stack < (P.decode block).nbytes) :
    reply_put { sv with sock := { sv.sock with inbox := rest } } (P.decode block)
      = Except.error Failure.stack_overflow
    ∧ run_server P popen_ls sv = some
        { server := { sv with sock := { sv.sock with inbox := rest } }
          cause := Failure.stack_overflow } := by
  have hkill : reply_put { sv with sock := { sv.sock with inbox := rest } } (P.decode block)
      = Except.error Failure.stack_overflow := by
    simp [reply_put, hlarge]
  refine ⟨hkill, ?_⟩
  rw [run_server_step P popen_ls hsize sv block rest hblock hin]
  simp only [run_server_switch, hput, hkill]

/-- A PUT of eight mebibytes to `notes.txt`, the payload following the
header, on a worker with the usual stack: the length fits the field `nbytes`,
the file is absent and may be created, and the worker is killed with nothing
sent and nothing written. -/
theorem put_of_large_payload_kills_worker_witness :
    large_payload.length < 2 ^ example_protocol.NBYTES_BITS
    ∧ (example_protocol.decode large_put_block).nbytes = large_payload.length
    ∧ run_server example_protocol example_ls
        { fs := empty_directory, sock := fresh_socket (large_put_block ++ large_payload),
          stack := example_stack }
      = some
        { server := { fs := empty_directory, sock := { inbox := large_payload, sent := [] },
                      stack := example_stack }
          cause := Failure.stack_overflow } := by
  refine ⟨?_, ?_, ?_⟩
  · rw [large_payload_length]
    decide
  · rw [large_payload_length]
    decide
  · exact (put_of_large_payload_kills_worker example_protocol example_ls
      { fs := empty_directory, sock := fresh_socket (large_put_block ++ large_payload),
        stack := example_stack }
      large_put_block large_payload (by decide) (by decide) rfl (by decide) (by decide)).2

/-- C2: the framing of the three messages with a payload.  The LSOUT header
of `reply_ls` carries in `nbytes` the number of payload bytes sent right after
it when that number fits the field.  A call of `reply_get` that returns has
sent the header NAK alone or a FILEOUT header and one payload right after it,
and a call of `cix_put` has sent either nothing (the local file does not open,
the process is killed, or a step has no defined behaviour) or a PUT header and
one payload right after it; in both the header carries in `nbytes` the number
of bytes of that payload when that number fits the field.  The messages do go
out, with the whole file as the payload: the FILEOUT when the file opens and
fits the stack, the PUT when the name is stored and the local file opens, is
shorter than `2 ^ 31` bytes and fits the stack. -/
theorem payload_framing (P : Protocol) :
    (∀ (popen_ls : FileSystem → Except Nat (List Byte)) (sv : Server)
        (header : cix_header) (ls_output : List Byte),
      popen_ls sv.fs = Except.ok ls_output →
      ls_output.length < 2 ^ P.NBYTES_BITS →
      ∃ h, reply_ls P popen_ls sv header = Except.ok
          { sv with sock := { sv.sock with sent := sv.sock.sent ++
              [Packet.header h, Packet.payload ls_output] } }
        ∧ h.command = cix_command.LSOUT ∧ h.nbytes = ls_output.length)
    ∧ (∀ (sv sv1 : Server) (header : cix_header),
      reply_get P sv header = Except.ok sv1 →
      sv1.sock.sent = sv.sock.sent ++
          [Packet.header { header with command := cix_command.NAK }]
      ∨ ∃ h payload,
          sv1.sock.sent = sv.sock.sent ++ [Packet.header h, Packet.payload payload]
          ∧ h.command = cix_command.FILEOUT
          ∧ (payload.length < 2 ^ P.NBYTES_BITS → h.nbytes = payload.length))
    ∧ (∀ (sv : Server) (header : cix_header) (buffer : List Byte),
      ifstream sv.fs (c_str header.filename) = some buffer →
      buffer.length < 2 ^ P.NBYTES_BITS →
      buffer.length ≤ sv.stack →
      ∃ h, reply_get P sv header = Except.ok
          { sv with sock := { sv.sock with sent := sv.sock.sent ++
              [Packet.header h, Packet.payload buffer] } }
        ∧ h.command = cix_command.FILEOUT ∧ h.nbytes = buffer.length)
    ∧ (∀ (c : Session) (filename : List Char),
      (cix_put P c filename).session.sock.sent = c.sock.sent
      ∨ ∃ h payload,
          (cix_put P c filename).session.sock.sent = c.sock.sent ++
            [Packet.header h, Packet.payload payload]
          ∧ h.command = cix_command.PUT
          ∧ (payload.length < 2 ^ P.NBYTES_BITS → h.nbytes = payload.length))
    ∧ (∀ (c : Session) (filename w : List Char) (content : List Byte),
      snprintf (filename.length + 1) filename = some w →
      ifstream c.fs (c_str (store P.header_init.filename w)) = some content →
      content.length < 2 ^ 31 →
      content.length ≤ c.stack →
      ∃ h, (cix_put P c filename).session.sock.sent = c.sock.sent ++
          [Packet.header h, Packet.payload content]
        ∧ h.command = cix_command.PUT
        ∧ (content.length < 2 ^ P.NBYTES_BITS → h.nbytes = content.length)) := by
  refine ⟨?_, ?_, ?_, ?_, ?_⟩
  · intro popen_ls sv header ls_output hls hfit
    refine ⟨{ command := cix_command.LSOUT
              nbytes := to_nbytes P ls_output.length
              filename := List.replicate P.FILENAME_SIZE NUL }, ?_, rfl, ?_⟩
    · simp only [reply_ls, hls, send_packet, List.append_assoc, List.singleton_append]
    · simp [to_nbytes, Nat.mod_eq_of_lt hfit]
  · intro sv sv1 header hret
    rcases reply_get_answered P sv sv1 header hret with h1 | ⟨buffer, _, _, h1⟩
    · left
      rw [h1]
    · right
      refine ⟨{ header with command := cix_command.FILEOUT,
                            nbytes := to_nbytes P buffer.length }, buffer, ?_, rfl, ?_⟩
      · rw [h1]
      · intro hfit
        simp [to_nbytes, Nat.mod_eq_of_lt hfit]
  · intro sv header buffer hopen hfit hroom
    exact ⟨_, reply_get_of_open P sv header buffer hopen hroom, rfl,
      by simp [to_nbytes, Nat.mod_eq_of_lt hfit]⟩
  · intro c filename
    rcases cix_put_framed P c filename with h | ⟨n, content, field, hn, hsent⟩
    · exact Or.inl h
    · refine Or.inr ⟨{ command := cix_command.PUT, nbytes := to_nbytes P n,
                       filename := field }, _, hsent, rfl, ?_⟩
      intro hfit
      have hlen : (content.take n).length = n := by simp [hn]
      rw [hlen] at hfit ⊢
      simp [to_nbytes, Nat.mod_eq_of_lt hfit]
  · intro c filename w content hw hopen hint hroom
    obtain ⟨hsent, _⟩ := cix_put_sent P c filename w content hw hopen hint hroom
    exact ⟨_, hsent, rfl, fun hfit => by simp [to_nbytes, Nat.mod_eq_of_lt hfit]⟩

/-- The framing of `cix_put` at the scenario of the spec: the client puts the
local `notes.txt`, which holds `abc`. -/
theorem payload_framing_witness :
    ∃ h, (cix_put example_protocol notes_client "notes.txt".toList).session.sock.sent =
        [Packet.header h, Packet.payload [97, 98, 99]]
      ∧ h.command = cix_command.PUT ∧ h.nbytes = 3 := by
  obtain ⟨h, h1, h2, h3⟩ :=
    (payload_framing example_protocol).2.2.2.2 notes_client "notes.txt".toList
      ("notes.txt".toList ++ [NUL]) [97, 98, 99] (by decide) (by decide) (by decide)
      (by decide)
  exact ⟨h, h1, h2, h3 (by decide)⟩

/-- C3 (as amended): the answer of `reply_put`.  Whenever `reply_put` returns,
exactly one packet has been sent: the request header with its command
replaced by ACK when the file could be opened for writing and by NAK when not.
The field `nbytes` is sent back as it came, not set to zero, and no payload
follows.  It returns when the payload announced by the header arrives and its
buffer fits the stack. -/
theorem reply_put_answer (sv : Server) (header : cix_header) :
    (∀ sv1, reply_put sv header = Except.ok sv1 →
      sv1.sock.sent = sv.sock.sent ++
        [Packet.header { header with
          command := if (ofstream sv.fs (c_str header.filename)).isSome
            then cix_command.ACK else cix_command.NAK }])
    ∧ (∀ payload rest, header.nbytes = payload.length → sv.sock.inbox = payload ++ rest →
        header.nbytes ≤ sv.stack →
        ∃ sv1, reply_put sv header = Except.ok sv1
          ∧ sv1.sock.sent = sv.sock.sent ++
            [Packet.header { header with
              command := if (ofstream sv.fs (c_str header.filename)).isSome
                then cix_command.ACK else cix_command.NAK }]) := by
  constructor
  · intro sv1 h
    exact (reply_put_answered sv sv1 header h).1
  · intro payload rest hn hin hroom
    have hput := reply_put_of_payload sv header payload rest hn hin hroom
    cases ho : ofstream sv.fs (c_str header.filename) with
    | none =>
      simp only [ho] at hput
      exact ⟨_, hput, by simp⟩
    | some fs =>
      simp only [ho] at hput
      exact ⟨_, hput, by simp⟩

/-- The answer of `reply_put` at the scenario of the spec: the PUT of `abc`
to `notes.txt` is answered by ACK with `nbytes = 3`. -/
theorem reply_put_answer_witness :
    ∃ sv1, reply_put notes_server notes_put = Except.ok sv1
      ∧ sv1.sock.sent =
          [Packet.header { nbytes := 3, command := cix_command.ACK, filename := notes_field }] := by
  obtain ⟨sv1, h1, h2⟩ :=
    (reply_put_answer notes_server notes_put).2 [97, 98, 99] [] rfl rfl (by decide)
  exact ⟨sv1, h1, by rw [h2]; rfl⟩

/-- C3, the claim as written fails: for the request PUT, `nbytes = 3`,
`notes.txt` with the payload `abc`, the header sent back is ACK with
`nbytes = 3`, not `nbytes = 0`. -/
theorem reply_put_answer_counterexample :
    (reply_put notes_server notes_put).map (fun sv => sv.sock.sent) =
      Except.ok
        [Packet.header { nbytes := 3, command := cix_command.ACK, filename := notes_field }]
    := by
  rfl

/-- C4, what the code does instead: the `default` case of the `switch` does
not clear `name_container`.  So after one line whose first word is not a
command, the first word stays in place: every later line, the line `exit`
among them, is taken as an invalid command, the loop reads on, and it ends
only at the end of the input. -/
theorem exit_not_obeyed_after_unknown_word (P : Protocol) (c : Session)
    (first w : List Char) (ws later : List (List Char))
    (hwords : getline_words first [] = w :: ws)
    (hw : command_map_find w = none) :
    main P (first :: later) c =
      { session := c, ending := Ending.cix_exit_eof,
        dispatched := List.replicate (later.length + 1) cix_command.ERROR,
        unread := [] } := by
  have h := main_loop_of_unknown_word P c w hw later ws
  simp only [main, main_loop, hwords, List.nil_append, List.get?_cons_zero, hw,
    Option.getD_none, h]
  simp [List.replicate_succ]

/-- The lines `foo`, `exit`, `ls`: the line `exit` does not end the loop, the
line `ls` after it is read as well, and all three are invalid commands. -/
theorem exit_not_obeyed_after_unknown_word_witness :
    main example_protocol ["foo".toList, "exit".toList, "ls".toList] notes_client =
      { session := notes_client, ending := Ending.cix_exit_eof,
        dispatched := [cix_command.ERROR, cix_command.ERROR, cix_command.ERROR],
        unread := [] } :=
  exit_not_obeyed_after_unknown_word example_protocol notes_client "foo".toList
    "foo".toList [] ["exit".toList, "ls".toList] (by decide) (by decide)

/-- C5 (as amended): the request loop of the daemon.  The function
`run_server` returns for every finite input.  For a received header whose
command is none of LS, GET, PUT, RM the `switch` leaves the directory and the
packets sent as they are, and the session goes on as it would without that
header.  For a header whose command is one of the four, whenever the handler
returns it has sent exactly one header and the session goes on from the state
reached; the handler returns when the buffer it needs fits the stack and, for
PUT, the payload announced by `nbytes` arrives.  When the payload of a PUT
does not arrive, the session ends on the `socket_error` with nothing sent for
that header. -/
theorem run_server_one_response (P : Protocol)
    (popen_ls : FileSystem → Except Nat (List Byte))
    (sv : Server) (block rest : List Byte)
    (hsize : 0 < P.HEADER_SIZE)
    (hblock : block.length = P.HEADER_SIZE) (hin : sv.sock.inbox = block ++ rest) :
    (∃ fin, run_server P popen_ls sv = some fin)
    ∧ (((P.decode block).command ∉
        [cix_command.LS, cix_command.GET, cix_command.PUT, cix_command.RM]) →
      run_server_switch P popen_ls { sv with sock := { sv.sock with inbox := rest } }
          (P.decode block)
        = Except.ok { sv with sock := { sv.sock with inbox := rest } }
      ∧ run_server P popen_ls sv
        = run_server P popen_ls { sv with sock := { sv.sock with inbox := rest } })
    ∧ (((P.decode block).command ∈
        [cix_command.LS, cix_command.GET, cix_command.PUT, cix_command.RM]) →
      ∀ sv1,
        run_server_switch P popen_ls { sv with sock := { sv.sock with inbox := rest } }
            (P.decode block) = Except.ok sv1 →
        headers_sent sv1.sock.sent = headers_sent sv.sock.sent + 1
        ∧ run_server P popen_ls sv = run_server P popen_ls sv1)
    ∧ (((P.decode block).command ∈
        [cix_command.LS, cix_command.GET, cix_command.PUT, cix_command.RM]) →
      ((P.decode block).command = cix_command.GET →
        ∀ buffer, ifstream sv.fs (c_str (P.decode block).filename) = some buffer →
          buffer.length ≤ sv.stack) →
      ((P.decode block).command = cix_command.PUT →
        (P.decode block).nbytes ≤ sv.stack ∧ (P.decode block).nbytes ≤ rest.length) →
      ∃ sv1,
        run_server_switch P popen_ls { sv with sock := { sv.sock with inbox := rest } }
            (P.decode block) = Except.ok sv1)
    ∧ ((P.decode block).command = cix_command.PUT →
      (P.decode block).nbytes ≤ sv.stack →
      rest.length < (P.decode block).nbytes →
      run_server P popen_ls sv = some
        { server := { sv with sock := { sv.sock with inbox := rest } }
          cause := Failure.socket_error }
      ∧ headers_sent sv.sock.sent = headers_sent
          ({ sv with sock := { sv.sock with inbox := rest } } : Server).sock.sent) := by
  have hstep := run_server_step P popen_ls hsize sv block rest hblock hin
  refine ⟨run_server_returns P popen_ls hsize sv, ?_, ?_, ?_, ?_⟩
  · intro hcmd
    have hsw : run_server_switch P popen_ls { sv with sock := { sv.sock with inbox := rest } }
        (P.decode block) = Except.ok { sv with sock := { sv.sock with inbox := rest } } := by
      unfold run_server_switch
      cases hc : (P.decode block).command <;> simp_all
    refine ⟨hsw, ?_⟩
    rw [hstep, hsw]
  · intro hcmd sv1 hsw
    refine ⟨run_server_switch_sends_one P popen_ls
      { sv with sock := { sv.sock with inbox := rest } } sv1 _ hcmd hsw, ?_⟩
    rw [hstep, hsw]
  · intro hcmd hget hput
    unfold run_server_switch
    cases hc : (P.decode block).command <;> simp [hc] at hcmd
    · simp only [reply_get]
      cases ho : ifstream sv.fs (c_str (P.decode block).filename) with
      | none => exact ⟨_, rfl⟩
      | some buffer =>
        have hroom := hget hc buffer ho
        have hnot : ¬ sv.stack < buffer.length := by omega
        simp only [hnot, if_false]
        exact ⟨_, rfl⟩
    · exact reply_ls_returns P popen_ls _ _
    · obtain ⟨hroom, hle⟩ := hput hc
      have hnot : ¬ sv.stack < (P.decode block).nbytes := by omega
      simp only [reply_put, recv_packet, hnot, hle, if_true, if_false]
      cases ofstream sv.fs (c_str (P.decode block).filename) <;> exact ⟨_, rfl⟩
    · exact reply_rm_returns _ _
  · intro hc hroom hshort
    refine ⟨?_, rfl⟩
    have hnot : ¬ sv.stack < (P.decode block).nbytes := by omega
    have hnle : ¬ (P.decode block).nbytes ≤ rest.length := by omega
    rw [hstep]
    simp only [run_server_switch, hc, reply_put, recv_packet, hnot, hnle, if_false]

/-- The request loop on an ACK header followed by an RM header: the first is
passed over, the second is answered by one header, and the session ends at the
end of the input with that one header sent. -/
theorem run_server_one_response_witness :
    run_server example_protocol example_ls
        { fs := notes_directory, sock := fresh_socket (example_block 9 ++ example_block 6),
          stack := example_stack }
      = run_server example_protocol example_ls
        { fs := notes_directory, sock := fresh_socket (example_block 6),
          stack := example_stack }
    ∧ (∃ sv1,
        run_server_switch example_protocol example_ls
          { fs := notes_directory, sock := fresh_socket [], stack := example_stack }
          (example_protocol.decode (example_block 6)) = Except.ok sv1
        ∧ headers_sent sv1.sock.sent = 1)
    ∧ (run_server example_protocol example_ls
        { fs := notes_directory, sock := fresh_socket (example_block 9 ++ example_block 6),
          stack := example_stack }).map
        (fun fin => (headers_sent fin.server.sock.sent, fin.cause))
      = some (1, Failure.socket_error) := by
  refine ⟨((run_server_one_response example_protocol example_ls
      { fs := notes_directory, sock := fresh_socket (example_block 9 ++ example_block 6),
        stack := example_stack }
      (example_block 9) (example_block 6) (by decide) (by decide) rfl).2.1 (by decide)).2,
    ?_, by decide⟩
  have h := (run_server_one_response example_protocol example_ls
      { fs := notes_directory, sock := fresh_socket (example_block 6),
        stack := example_stack }
      (example_block 6) [] (by decide) (by decide) (by decide)).2.2
  obtain ⟨sv1, h1⟩ := h.2.1 (by decide) (by decide) (by decide)
  exact ⟨sv1, h1, (h.1 (by decide) sv1 h1).1⟩

/-- C5, the claim as written fails: a PUT header that announces three bytes,
after which the client closes the connection, is a header with one of the four
commands, and the session ends with no header sent. -/
theorem run_server_one_response_counterexample :
    example_protocol.decode notes_put_block = notes_put
    ∧ (run_server example_protocol example_ls
        { fs := empty_directory, sock := fresh_socket notes_put_block,
          stack := example_stack }).map
        (fun fin => (headers_sent fin.server.sock.sent, fin.cause))
      = some (0, Failure.socket_error) := by
  decide

/-- The filename of a request for a short plain name.  For a name shorter than
`FILENAME_SIZE` in which there is neither a percent sign nor a NUL, the array
`filename` of the header built by `cix_get`, `cix_rm` and `cix_put` starts
with the name and a NUL, nothing is stored outside the array, and the header
is sent (by `cix_put` when the local file opens, is shorter than `2 ^ 31`
bytes and fits the stack; when it does not open nothing is sent). -/
theorem request_filename_of_short_name (P : Protocol) (c : Session) (filename : List Char)
    (hshort : filename.length < P.FILENAME_SIZE)
    (hpct : PERCENT ∉ filename) (hnul : NUL ∉ filename) :
    ∃ field : List Char,
      field.take (filename.length + 1) = filename ++ [NUL]
      ∧ c_str field = filename
      ∧ (cix_get P c filename).session.sock.sent = c.sock.sent ++
          [Packet.header { P.header_init with command := cix_command.GET, filename := field }]
      ∧ (cix_get P c filename).session.overrun = c.overrun
      ∧ (cix_rm P c filename).session.sock.sent = c.sock.sent ++
          [Packet.header { P.header_init with command := cix_command.RM, filename := field }]
      ∧ (cix_rm P c filename).session.overrun = c.overrun
      ∧ (cix_put P c filename).session.overrun = c.overrun
      ∧ (ifstream c.fs filename = none →
          (cix_put P c filename).session.sock.sent = c.sock.sent)
      ∧ (∀ content, ifstream c.fs filename = some content → content.length < 2 ^ 31 →
          content.length ≤ c.stack →
          (cix_put P c filename).session.sock.sent = c.sock.sent ++
            [Packet.header { command := cix_command.PUT
                             nbytes := to_nbytes P content.length
                             filename := field },
             Packet.payload content]) := by
  have hw := snprintf_of_plain filename hpct hnul
  have hmem := stored_memory_c_str P.header_init.filename filename hnul
  have hzero : (filename ++ [NUL]).length - P.FILENAME_SIZE = 0 := by
    simp; omega
  obtain ⟨hg1, hg2⟩ := cix_get_sent P c filename _ hw
  obtain ⟨hr1, hr2⟩ := cix_rm_sent P c filename _ hw
  have hp2 := cix_put_overrun P c filename _ hw
  rw [hzero] at hg2 hr2 hp2
  refine ⟨(store P.header_init.filename (filename ++ [NUL])).take P.FILENAME_SIZE,
    stored_field_take P filename hshort, stored_field_c_str P filename hshort hnul,
    hg1, hg2, hr1, hr2, hp2, ?_, ?_⟩
  · intro hopen
    exact cix_put_of_missing P c filename _ hw (by rw [hmem]; exact hopen)
  · intro content hopen hint hroom
    exact (cix_put_sent P c filename _ content hw (by rw [hmem]; exact hopen) hint hroom).1

/-- The filename used as a format: of the name `a%%b` the array holds `a%b`,
and of a name with a NUL inside it holds the part before the NUL. -/
theorem cix_get_of_format_name :
    filenames_sent (cix_get example_protocol notes_client
        "a%%b".toList).session.sock.sent = ["a%b".toList]
    ∧ filenames_sent (cix_get example_protocol notes_client
        ['a', NUL, 'b']).session.sock.sent = ["a".toList] := by
  decide

/-- C6, what the code does instead: no name is rejected for its length.  The
size passed to `snprintf` is the length of the name plus one, not the size of
the array, so for a name of `FILENAME_SIZE` characters or more (without a
percent sign or a NUL) `cix_get` and `cix_rm` still send the header, whose
array holds the first `FILENAME_SIZE` characters of the name with no NUL at the
end, and all three functions store the rest of the name and the NUL, at least
one character, outside the array. -/
theorem long_filename_is_sent_and_overruns (P : Protocol) (c : Session)
    (filename : List Char)
    (hlong : P.FILENAME_SIZE ≤ filename.length)
    (hpct : PERCENT ∉ filename) (hnul : NUL ∉ filename) :
    (cix_get P c filename).session.sock.sent = c.sock.sent ++
      [Packet.header { P.header_init with command := cix_command.GET
                                          filename := filename.take P.FILENAME_SIZE }]
    ∧ (cix_rm P c filename).session.sock.sent = c.sock.sent ++
      [Packet.header { P.header_init with command := cix_command.RM
                                          filename := filename.take P.FILENAME_SIZE }]
    ∧ (cix_get P c filename).session.overrun
        = c.overrun + (filename.length + 1 - P.FILENAME_SIZE)
    ∧ (cix_rm P c filename).session.overrun
        = c.overrun + (filename.length + 1 - P.FILENAME_SIZE)
    ∧ (cix_put P c filename).session.overrun
        = c.overrun + (filename.length + 1 - P.FILENAME_SIZE)
    ∧ 0 < filename.length + 1 - P.FILENAME_SIZE := by
  have hw := snprintf_of_plain filename hpct hnul
  have hfield := stored_field_of_long_name P filename hlong
  have hlen : (filename ++ [NUL]).length = filename.length + 1 := by simp
  obtain ⟨hg1, hg2⟩ := cix_get_sent P c filename _ hw
  obtain ⟨hr1, hr2⟩ := cix_rm_sent P c filename _ hw
  have hp2 := cix_put_overrun P c filename _ hw
  rw [hfield] at hg1 hr1
  rw [hlen] at hg2 hr2 hp2
  exact ⟨hg1, hr1, hg2, hr2, hp2, by omega⟩

/-- A `get` with a name of 59 characters, the size of the array: the header is
sent with the 59 characters and no NUL in its array, and one character is
stored outside the array. -/
theorem long_filename_is_sent_and_overruns_witness :
    (cix_get example_protocol notes_client (List.replicate 59 'a')).session.sock.sent =
      [Packet.header { nbytes := 0, command := cix_command.GET,
                       filename := List.replicate 59 'a' }]
    ∧ (cix_get example_protocol notes_client (List.replicate 59 'a')).session.overrun = 1 := by
  obtain ⟨h1, _, h3, _⟩ :=
    long_filename_is_sent_and_overruns example_protocol notes_client (List.replicate 59 'a')
      (by decide) (by decide) (by decide)
  exact ⟨by rw [h1]; rfl, by rw [h3]; rfl⟩

/-- C7: a GET for a file that cannot be opened for reading.  The function
`reply_get` sends exactly one packet, the request header with the command
NAK, and changes nothing else. -/
theorem reply_get_of_missing_file (P : Protocol) (sv : Server) (header : cix_header)
    (hfail : ifstream sv.fs (c_str header.filename) = none) :
    reply_get P sv header =
      Except.ok { sv with sock := { sv.sock with
        sent := sv.sock.sent ++
          [Packet.header { header with command := cix_command.NAK }] } } := by
  simp [reply_get, hfail, send_packet]

/-- A GET for `notes.txt` in an empty directory is answered by NAK alone. -/
theorem reply_get_of_missing_file_witness :
    reply_get example_protocol
        { fs := empty_directory, sock := fresh_socket [], stack := example_stack } notes_get =
      Except.ok { fs := empty_directory
                  sock := { inbox := [], sent :=
                    [Packet.header { notes_get with command := cix_command.NAK }] }
                  stack := example_stack } :=
  reply_get_of_missing_file example_protocol
    { fs := empty_directory, sock := fresh_socket [], stack := example_stack } notes_get
    (by rfl)

/-- C8: the function `reply_rm`.  For a name with no file, the one packet
sent is the request header with the command NAK, and the directory is the
same.  For a file that is there and may be removed, the one packet sent is the
request header with the command ACK, that file is gone, and every other name
has the file it had. -/
theorem reply_rm_frame (sv : Server) (header : cix_header) :
    (sv.fs.files (c_str header.filename) = none →
      reply_rm sv header = Except.ok
        { sv with
          fs := sv.fs
          sock := { sv.sock with sent := sv.sock.sent ++
            [Packet.header { header with command := cix_command.NAK }] } })
    ∧ (∀ f, sv.fs.files (c_str header.filename) = some f →
        sv.fs.may_unlink (c_str header.filename) = true →
        ∃ sv1, reply_rm sv header = Except.ok sv1
          ∧ sv1.sock = { sv.sock with sent := sv.sock.sent ++
              [Packet.header { header with command := cix_command.ACK }] }
          ∧ sv1.fs.files (c_str header.filename) = none
          ∧ (∀ n, n ≠ c_str header.filename → sv1.fs.files n = sv.fs.files n)
          ∧ sv1.fs.may_create = sv.fs.may_create
          ∧ sv1.fs.may_unlink = sv.fs.may_unlink) := by
  constructor
  · intro h
    simp [reply_rm, unlink, h, send_packet]
  · intro f hf hu
    refine ⟨{ sv with
              fs := sv.fs.set (c_str header.filename) none
              sock := send_packet sv.sock
                (Packet.header { header with command := cix_command.ACK }) },
      ?_, rfl, ?_, ?_, rfl, rfl⟩
    · simp [reply_rm, unlink, hf, hu]
    · simp [FileSystem.set]
    · intro n hn
      simp [FileSystem.set, hn]

/-- An RM of `notes.txt`, first in an empty directory, then in the directory
that holds it. -/
theorem reply_rm_frame_witness :
    (reply_rm { fs := empty_directory, sock := fresh_socket [], stack := example_stack }
        notes_rm).map (fun sv => sv.sock.sent)
      = Except.ok [Packet.header { notes_rm with command := cix_command.NAK }]
    ∧ ∃ sv1, reply_rm { fs := notes_directory, sock := fresh_socket [],
                        stack := example_stack } notes_rm = Except.ok sv1
        ∧ sv1.sock.sent = [Packet.header { notes_rm with command := cix_command.ACK }]
        ∧ sv1.fs.files "notes.txt".toList = none := by
  constructor
  · rw [(reply_rm_frame { fs := empty_directory, sock := fresh_socket [],
                          stack := example_stack } notes_rm).1 rfl]
    rfl
  · obtain ⟨sv1, h1, h2, h3, _⟩ :=
      (reply_rm_frame { fs := notes_directory, sock := fresh_socket [],
                        stack := example_stack } notes_rm).2
        { content := [97, 98, 99], readable := true, writable := true } (by decide) rfl
    exact ⟨sv1, h1, by rw [h2]; rfl, h3⟩


/-- C9: the sweep of `reap_zombies`.  With positive process ids, the function
returns for every list of finished workers, with the bound it is given and
with any larger one; on return no finished worker is left, the workers that
run are the same, and the log names every reaped worker, in the order in
which `waitpid` delivered them. -/
theorem reap_zombies_reaps_all (k : Children) (hpos : ∀ pid ∈ k.finished, 0 < pid) :
    reap_zombies k = some ({ finished := [], running := k.running }, k.finished)
    ∧ ∀ fuel, k.finished.length < fuel →
        reap_zombies_loop fuel k [] =
          some ({ finished := [], running := k.running }, k.finished) := by
  have h := reap_zombies_loop_all k.finished k.running []
  constructor
  · simpa [reap_zombies] using h (k.finished.length + 1) hpos (by omega)
  · intro fuel hf
    simpa using h fuel hpos hf

/-- The sweep with three finished workers and two that run. -/
theorem reap_zombies_reaps_all_witness :
    reap_zombies { finished := [4102, 4117, 4120], running := [4105, 4131] } =
      some ({ finished := [], running := [4105, 4131] }, [4102, 4117, 4120]) :=
  (reap_zombies_reaps_all { finished := [4102, 4117, 4120], running := [4105, 4131] }
    (by decide)).1

/-- C10, what the code does instead: the session loop reads `name_container`
outside its bounds.  On an empty first line the vector is empty when
`name_container[0]` is read; on a first line `get`, `put` or `rm` with no
filename it has one word when `name_container[1]` is read. -/
theorem main_reads_outside_name_container (P : Protocol) (c : Session)
    (rest : List (List Char)) :
    main P ([] :: rest) c =
      { session := c, ending := Ending.out_of_range, dispatched := [], unread := rest }
    ∧ main P ("get".toList :: rest) c =
      { session := c, ending := Ending.out_of_range, dispatched := [cix_command.GET],
        unread := rest }
    ∧ main P ("put".toList :: rest) c =
      { session := c, ending := Ending.out_of_range, dispatched := [cix_command.PUT],
        unread := rest }
    ∧ main P ("rm".toList :: rest) c =
      { session := c, ending := Ending.out_of_range, dispatched := [cix_command.RM],
        unread := rest } :=
  ⟨rfl, rfl, rfl, rfl⟩

end Cix
